import Mathlib

set_option maxRecDepth 8000

namespace Kumo

/-- JSON-like values as the Node runtime hands them to the server code
(src/kumo-ui-api/server.js). Numbers are modelled as exact integers: the
server only ever consumes finite numeric counters, and its `isNum` guard
rejects everything else. `undefv` stands for `undefined`, i.e. a missing
field or a failed optional chain. -/
inductive JVal where
  | undefv : JVal
  | null : JVal
  | bool (b : Bool) : JVal
  | num (v : Int) : JVal
  | str (s : String) : JVal
  | arr (elems : List JVal) : JVal
  | obj (fields : List (String × JVal)) : JVal

/-- Property access `v?.k` with optional chaining: anything that is not an
object carrying the field yields `undefv`. -/
def getF : JVal → String → JVal
  | .obj fields, k =>
      (match fields.find? (fun p => p.1 == k) with
       | some p => p.2
       | none => .undefv)
  | _, _ => .undefv

/-- Index access `v[i]` (on arrays an element, on objects the stringified key). -/
def getIdx (v : JVal) (i : Nat) : JVal :=
  match v with
  | .arr elems => (elems.get? i).getD .undefv
  | .obj _ => getF v (toString i)
  | _ => .undefv

/-- `isNum` from server.js: a finite number. -/
def isNum : JVal → Bool
  | .num _ => true
  | _ => false

/-- `n` from server.js: the value when it is a finite number, else 0. -/
def nJ : JVal → Int
  | .num v => v
  | _ => 0

/-- JavaScript truthiness of a JSON value. -/
def truthy : JVal → Bool
  | .undefv => false
  | .null => false
  | .bool b => b
  | .num v => v != 0
  | .str s => s != ""
  | .arr _ => true
  | .obj _ => true

/-- JavaScript `a || b` on JSON values. -/
def jsOr (a b : JVal) : JVal := if truthy a then a else b

/-- JavaScript nullish test: `undefined` or `null`. -/
def nullish : JVal → Bool
  | .undefv => true
  | .null => true
  | _ => false

/-- JavaScript `a ?? b`. -/
def jsNullishOr (a b : JVal) : JVal := if nullish a then b else a

/-- JavaScript `a || b` on already-normalized finite numbers, where 0 is the
only falsy value the helpers can produce. -/
def orI (a b : Int) : Int := if a = 0 then b else a

/-- JavaScript `String(v)` for display purposes. Array display (comma joins)
is approximated by the empty string: no value the claims touch displays an
array or a plain object. -/
def jsDisplay : JVal → String
  | .str s => s
  | .num v => toString v
  | .bool b => if b then "true" else "false"
  | .null => "null"
  | .undefv => "undefined"
  | .arr _ => ""
  | .obj _ => "[object Object]"

/-- `sumObjNums` from server.js: sum the finite-number values of an object
(`Object.values`); arrays are objects in JS so their elements are summed;
everything else gives 0. -/
def sumObjNums : JVal → Int
  | .obj fields => fields.foldl (fun a p => if isNum p.2 then a + nJ p.2 else a) 0
  | .arr elems => elems.foldl (fun a v => if isNum v then a + nJ v else a) 0
  | _ => 0

/-- `sumArrayAt` from server.js: some Kumo arrays store a numeric value at
key `@`. -/
def sumArrayAt : JVal → Int
  | .arr elems =>
      elems.foldl (fun a v => if isNum (getF v "@") then a + nJ (getF v "@") else a) 0
  | _ => 0

/-- The service rollup keys tried by `pickServiceTotal`, in source order. -/
def svcKeys : List String := ["smtp_client", "smtp", "http", "submission", "esmtp_listener"]

/-- `pickServiceTotal` from server.js: prefer a known non-overlapping service
rollup key to avoid double-counting parent and child entries; otherwise sum
every numeric value. -/
def pickServiceTotal (serviceObj : JVal) : Int :=
  match serviceObj with
  | .obj _ | .arr _ =>
      (match svcKeys.find? (fun k => isNum (getF serviceObj k)) with
       | some k => nJ (getF serviceObj k)
       | none => sumObjNums serviceObj)
  | _ => 0

/-- The chain `m?.k?.value`. -/
def valOf (m : JVal) (k : String) : JVal := getF (getF m k) "value"

/-- One cumulative OUT counter of `pushFromKumo` (delivered / transfail /
fail): authoritative scalar, else known-service rollup, else provider-keyed
map sum, else tagged-array sum, else 0, combined with `||` so the first
nonzero source wins. -/
def cumCounter (m : JVal) (kScalar kProv kArr : String) : Int :=
  orI (if isNum (valOf m kScalar) then nJ (valOf m kScalar) else 0)
    (orI (pickServiceTotal (getF (valOf m kScalar) "service"))
      (orI (sumObjNums (getF (valOf m kProv) "provider"))
        (orI (sumArrayAt (valOf m kArr)) 0)))

/-- `delivered` in `pushFromKumo`. -/
def deliveredOf (m : JVal) : Int :=
  cumCounter m "total_messages_delivered" "total_messages_delivered_by_provider"
    "total_messages_delivered_by_provider_and_source"

/-- `deferred` in `pushFromKumo`. -/
def deferredOf (m : JVal) : Int :=
  cumCounter m "total_messages_transfail" "total_messages_transfail_by_provider"
    "total_messages_transfail_by_provider_and_source"

/-- `bounced` in `pushFromKumo`. -/
def bouncedOf (m : JVal) : Int :=
  cumCounter m "total_messages_fail" "total_messages_fail_by_provider"
    "total_messages_fail_by_provider_and_source"

/-- `received` in `pushFromKumo`: true inbound cumulative, no derivation. -/
def receivedOf (m : JVal) : Int :=
  orI (if isNum (valOf m "total_messages_received") then nJ (valOf m "total_messages_received") else 0)
    (orI (pickServiceTotal (getF (valOf m "total_messages_received") "service")) 0)

/-- `ready` in `pushFromKumo`. -/
def readyOf (m : JVal) : Int :=
  orI (pickServiceTotal (getF (valOf m "ready_count") "service")) 0

/-- `scheduled` in `pushFromKumo`. -/
def scheduledOf (m : JVal) : Int :=
  orI (if isNum (valOf m "scheduled_count_total") then nJ (valOf m "scheduled_count_total") else 0)
    (if isNum (valOf m "scheduled_count") then nJ (valOf m "scheduled_count") else 0)

/-- `depth` in `pushFromKumo`: provider rollup, else pool rollup, else the
derived fallback `ready + scheduled`, else 0. -/
def depthOf (m : JVal) : Int :=
  orI (sumObjNums (getF (valOf m "queued_count_by_provider") "provider"))
    (orI (sumArrayAt (valOf m "queued_count_by_provider_and_pool"))
      (orI (readyOf m + scheduledOf m) 0))

/-- Modelled from the spec's wording, for comparison with the code: an
ordered list of candidate sources in which the first successful (nonzero)
one alone determines the counter, and an empty/failed list normalizes to 0. -/
def firstNonzero (sources : List Int) : Int := (sources.find? (fun x => x != 0)).getD 0

/-- The ordered sources (a) scalar, (b) service rollup, (c) provider map,
(d) tagged array, for one cumulative counter. -/
def cumSources (m : JVal) (kScalar kProv kArr : String) : List Int :=
  [ if isNum (valOf m kScalar) then nJ (valOf m kScalar) else 0,
    pickServiceTotal (getF (valOf m kScalar) "service"),
    sumObjNums (getF (valOf m kProv) "provider"),
    sumArrayAt (valOf m kArr) ]

-- ---------- Sample store and windows ----------

/-- Module constants of server.js. -/
def RETAIN_MS : Int := 2 * 3600000

def DEFERRAL_RETAIN_MS : Int := 48 * 3600000

def DEFERRAL_MAX_EVENTS : Nat := 50000

def EVENTS_MAX : Nat := 500

def LAST_ERRORS_PER_DOMAIN : Nat := 20

def LAST_ERRORS_RETENTION : Int := 48 * 3600000

def MIN_MS : Int := 60000

def HOUR_MS : Int := 3600000

/-- One cumulative-counter sample, pushed once per poll tick. -/
structure Sample where
  t : Int
  received : Int
  delivered : Int
  deferred : Int
  bounced : Int
deriving DecidableEq, Repr

/-- One instantaneous queue snapshot. -/
structure QSample where
  t : Int
  depth : Int
  ready : Int
  scheduled : Int
deriving DecidableEq, Repr

/-- The four counter keys windowed by `buildSession`. -/
inductive CKey where
  | received : CKey
  | delivered : CKey
  | deferred : CKey
  | bounced : CKey
deriving DecidableEq, Repr

def Sample.get : Sample → CKey → Int
  | s, .received => s.received
  | s, .delivered => s.delivered
  | s, .deferred => s.deferred
  | s, .bounced => s.bounced

/-- `windowSum` from server.js: walk consecutive sample pairs and, for each
pair whose later timestamp falls inside the trailing window of length `ms`
ending at `endTs`, add the clamped increment `max 0 (later - earlier)`. -/
def windowSum : List Sample → Int → Int → CKey → Int
  | a :: b :: rest, endTs, ms, k =>
      (if b.t ≤ endTs - ms then 0 else max 0 (b.get k - a.get k)) +
        windowSum (b :: rest) endTs ms k
  | _, _, _, _ => 0

/-- A derived Window Stat (the shape of `lastMinute` / `lastHour`). -/
structure WinStat where
  received : Int
  delivered : Int
  deferred : Int
  bounced : Int
deriving DecidableEq, Repr

def WinStat.get : WinStat → CKey → Int
  | w, .received => w.received
  | w, .delivered => w.delivered
  | w, .deferred => w.deferred
  | w, .bounced => w.bounced

/-- The window stat `buildSession` computes for one duration. -/
def sessionWindow (samples : List Sample) (now ms : Int) : WinStat :=
  { received := windowSum samples now ms .received
    delivered := windowSum samples now ms .delivered
    deferred := windowSum samples now ms .deferred
    bounced := windowSum samples now ms .bounced }

/-- The two Peak Records (minute and hour classes). -/
structure PeaksPair where
  minute : WinStat
  hour : WinStat
deriving DecidableEq, Repr

/-- The `upd` closure inside `updatePeaks`: fieldwise `max existing new`
(the `n` guard is the identity on the numeric fields modelled here). -/
def updOne (dst src : WinStat) : WinStat :=
  { received := max dst.received src.received
    delivered := max dst.delivered src.delivered
    deferred := max dst.deferred src.deferred
    bounced := max dst.bounced src.bounced }

/-- `updatePeaks` from server.js. -/
def updatePeaks (p : PeaksPair) (lastMinute lastHour : WinStat) : PeaksPair :=
  { minute := updOne p.minute lastMinute, hour := updOne p.hour lastHour }

/-- Fieldwise order on Window Stats. -/
def winLe (a b : WinStat) : Prop :=
  a.received ≤ b.received ∧ a.delivered ≤ b.delivered ∧
  a.deferred ≤ b.deferred ∧ a.bounced ≤ b.bounced

/-- Fieldwise order on Peak Records. -/
def peaksLe (p q : PeaksPair) : Prop := winLe p.minute q.minute ∧ winLe p.hour q.hour

/-- One point of the per-minute rate series of `buildSession`:
`Math.max(0, (b[k] - a[k]) * f)` with `f = 60000 / Math.max(1, b.t - a.t)`,
in exact rational arithmetic. -/
def perMinuteRate (a b : Sample) (k : CKey) : ℚ :=
  let dt : Int := max 1 (b.t - a.t)
  let f : ℚ := 60000 / (dt : ℚ)
  max 0 (((b.get k - a.get k : Int) : ℚ) * f)

-- ---------- Deferral and last-error ledgers ----------

/-- One Deferral Event from the log watcher. -/
structure DeferralEvent where
  t : Int
  domain : String
deriving DecidableEq, Repr

/-- JavaScript `arr.slice(-k)` for a nonnegative `k`: the newest `k`
entries dropped from the front — except that `k = 0` gives `slice(-0)`,
which is `slice(0)`, the whole array. -/
def jsSliceNeg {α : Type} (l : List α) (k : Nat) : List α :=
  if k = 0 then l else l.drop (l.length - k)

/-- `recordDeferral` from server.js, with the env-configured retention
horizon and hard cap passed explicitly. `Math.floor(maxEvents * 0.9)` is
the exact `maxEvents * 9 / 10`, and the eviction is
`slice(-Math.floor(maxEvents * 0.9))`, including the JavaScript quirk that
a slice argument of `-0` keeps the whole array. -/
def recordDeferral (retainMs : Int) (maxEvents : Nat)
    (events : List DeferralEvent) (domain : String) (now : Int) : List DeferralEvent :=
  if domain = "" then events
  else
    let evs := (events ++ [({ t := now, domain := domain } : DeferralEvent)]).filter
      (fun e => decide (now - retainMs ≤ e.t))
    if maxEvents < evs.length then jsSliceNeg evs (maxEvents * 9 / 10) else evs

/-- One Last-Error Record. `provider` and `code` keep the raw JSON values the
server stores (possibly `undefv`); `ts` is overwritten on insert. -/
structure LErr where
  ts : Int
  domain : String
  provider : JVal
  code : JVal
  enhanced : Option String
  text : String

/-- `pushLastError` from server.js. The `Map` is a total function from domain
to list (absent key = `[]`, matching `lastErrors.get(d) || []`); the
`while length > cap shift()` loop is `drop (length - cap)`; the final pass is
the cross-domain age sweep. -/
def pushLastError (m : String → List LErr) (entry : LErr) (now : Int) : String → List LErr :=
  let list := m entry.domain ++ [{ entry with ts := now }]
  let list := list.drop (list.length - LAST_ERRORS_PER_DOMAIN)
  let m1 : String → List LErr := fun d => if d = entry.domain then list else m d
  fun d => (m1 d).filter (fun e => decide (now - LAST_ERRORS_RETENTION ≤ e.ts))

-- ---------- Persistence ----------

/-- The in-memory mutable state persisted by server.js. -/
structure MemState where
  samples : List Sample
  qSamples : List QSample
  peaks : PeaksPair
  deferralEvents : List DeferralEvent

/-- A persisted peak record: every field may be missing in a legacy file. -/
structure PWinStat where
  received : Option Int
  delivered : Option Int
  deferred : Option Int
  bounced : Option Int

/-- Persisted peaks: the minute or hour object may be missing. -/
structure PPeaks where
  minute : Option PWinStat
  hour : Option PWinStat

/-- The persisted state document. Any of the collections may be missing
(`Array.isArray` fails) in a legacy or foreign file. -/
structure PersistedState where
  samples : Option (List Sample)
  qSamples : Option (List QSample)
  peaks : Option PPeaks
  deferralEvents : Option (List DeferralEvent)
  savedAt : Int

/-- The per-field default fill on load: `peaks[k].f = peaks[k].f ?? 0`. -/
def fillPeak (p : PWinStat) : WinStat :=
  { received := p.received.getD 0
    delivered := p.delivered.getD 0
    deferred := p.deferred.getD 0
    bounced := p.bounced.getD 0 }

/-- Serialization of an in-memory peak record (all fields present). -/
def toPWinStat (w : WinStat) : PWinStat :=
  { received := some w.received
    delivered := some w.delivered
    deferred := some w.deferred
    bounced := some w.bounced }

/-- `loadState` from server.js, applied to a successfully parsed document:
re-filter samples and queue snapshots by the sample retention horizon, adopt
the persisted peaks only when both the minute and hour objects are present
(filling missing fields with 0), and re-filter deferral events by the
deferral retention horizon. `prev` is the in-memory state from before the
load, kept where the document is not well-formed. -/
def loadState (doc : PersistedState) (now : Int) (prev : MemState) : MemState :=
  let cutoff := now - RETAIN_MS
  let samples := match doc.samples with
    | some l => l.filter (fun s => decide (cutoff ≤ s.t))
    | none => []
  let qSamples := match doc.qSamples with
    | some l => l.filter (fun s => decide (cutoff ≤ s.t))
    | none => []
  let peaks := match doc.peaks with
    | some pp =>
        (match pp.minute, pp.hour with
         | some mn, some hr => ({ minute := fillPeak mn, hour := fillPeak hr } : PeaksPair)
         | _, _ => prev.peaks)
    | none => prev.peaks
  let dCut := now - DEFERRAL_RETAIN_MS
  let deferralEvents := match doc.deferralEvents with
    | some l => l.filter (fun e => decide (dCut ≤ e.t))
    | none => []
  { samples := samples, qSamples := qSamples, peaks := peaks, deferralEvents := deferralEvents }

/-- `saveState` from server.js: serialize the full in-memory state with a
save timestamp. -/
def saveState (s : MemState) (now : Int) : PersistedState :=
  { samples := some s.samples
    qSamples := some s.qSamples
    peaks := some { minute := some (toPWinStat s.peaks.minute), hour := some (toPWinStat s.peaks.hour) }
    deferralEvents := some s.deferralEvents
    savedAt := now }

/-- `prune` from server.js. -/
def prune (now : Int) (samples : List Sample) (qSamples : List QSample) :
    List Sample × List QSample :=
  (samples.filter (fun s => decide (now - RETAIN_MS ≤ s.t)),
   qSamples.filter (fun s => decide (now - RETAIN_MS ≤ s.t)))

-- ---------- String helpers of the watcher ----------

/-- JavaScript whitespace, restricted to the ASCII range actually present in
mail logs. -/
def isJsWs (c : Char) : Bool :=
  c == ' ' || c == '\t' || c == '\n' || c == '\r' || c == '\x0b' || c == '\x0c'

/-- `String.prototype.trim`. -/
def trimStr (s : String) : String :=
  ⟨((s.data.dropWhile isJsWs).reverse.dropWhile isJsWs).reverse⟩

/-- ASCII lower-casing (`toLowerCase` on the domain alphabet). -/
def lowerStr (s : String) : String := ⟨s.data.map Char.toLower⟩

/-- ASCII upper-casing (`toUpperCase` on level tokens). -/
def upperStr (s : String) : String := ⟨s.data.map Char.toUpper⟩

/-- `s.slice(0, k)`. -/
def takeStr (k : Nat) (s : String) : String := ⟨s.data.take k⟩

/-- `stripAnsi` from server.js: global removal of `ESC [ [0-9;]* m`
sequences. The fuel starts at the input length and bounds recursion depth;
every step consumes at least one character. -/
def stripAnsiGo : Nat → List Char → List Char
  | 0, cs => cs
  | _, [] => []
  | fuel + 1, c :: cs =>
      if c = '\x1b' then
        match cs with
        | '[' :: rest =>
            (match rest.dropWhile (fun d => d.isDigit || d == ';') with
             | 'm' :: after => stripAnsiGo fuel after
             | _ => c :: stripAnsiGo fuel cs)
        | _ => c :: stripAnsiGo fuel cs
      else c :: stripAnsiGo fuel cs

def stripAnsi (s : String) : String := ⟨stripAnsiGo (s.length + 1) s.data⟩

/-- The whitespace collapse of `trimText`: each run of whitespace becomes a
single space. -/
def collapseWs (cs : List Char) : List Char :=
  cs.foldr
    (fun c acc =>
      if isJsWs c then
        match acc with
        | ' ' :: _ => acc
        | _ => ' ' :: acc
      else c :: acc) []

/-- `trimText` from server.js: collapse whitespace, trim, and cap the length
at `cap` characters with a trailing ellipsis. -/
def trimText (s : String) (cap : Nat) : String :=
  let t := trimStr ⟨collapseWs s.data⟩
  if cap < t.length then ⟨t.data.take (cap - 1) ++ ['…']⟩ else t

/-- `toEnhancedCode` from server.js (`??` chains keep 0-valued fields, the
`!= null` guard rejects only null and undefined). -/
def toEnhancedCode (v : JVal) : Option String :=
  if truthy v then
    match v with
    | .str s => some s
    | .num x => some (toString x)
    | .arr _ | .obj _ =>
        let a := jsNullishOr (getF v "major") (jsNullishOr (getF v "m") (getIdx v 0))
        let b := jsNullishOr (getF v "minor") (jsNullishOr (getF v "n") (getIdx v 1))
        let c := jsNullishOr (getF v "detail") (jsNullishOr (getF v "d") (getIdx v 2))
        if !nullish a && !nullish b && !nullish c then
          some (jsDisplay a ++ "." ++ jsDisplay b ++ "." ++ jsDisplay c)
        else none
    | _ => none
  else none

-- ---------- A small backtracking regex engine ----------

/-- The regular-expression fragment used by server.js, as an explicit rule
AST: character classes, literals via `cat` of classes, alternation, greedy
star and option, the word boundary anchor, and a single capture group. -/
inductive RE where
  | cls (p : Char → Bool) : RE
  | eps : RE
  | cat (a b : RE) : RE
  | alt (a b : RE) : RE
  | opt (r : RE) : RE
  | star (r : RE) : RE
  | wordB : RE
  | grp (r : RE) : RE

def isWordChar (c : Char) : Bool := c.isAlpha || c.isDigit || c == '_'

def headIsWord : List Char → Bool
  | [] => false
  | c :: _ => isWordChar c

def prevIsWord : Option Char → Bool
  | none => false
  | some c => isWordChar c

/-- The character preceding the rest `rem` of `input`, for word boundaries. -/
def lastConsumed (input rem : List Char) (prev : Option Char) : Option Char :=
  match (input.take (input.length - rem.length)).getLast? with
  | some c => some c
  | none => prev

/-- Backtracking matcher. `mrun fuel re input prev` lists every way `re` can
match a prefix of `input` as pairs of (rest of input, capture), in JavaScript
priority order: alternatives left first, quantifiers greedy (longest first).
Recursion is structural on the fuel, which every call decrements; a step
either descends one level into the (small, fixed) pattern or starts a star
iteration that consumed at least one character, so the generous fuel chosen
by `reTest` and `reCapture` below is never exhausted on their patterns. -/
def mrun : Nat → RE → List Char → Option Char → List (List Char × Option (List Char))
  | 0, _, _, _ => []
  | _ + 1, .cls p, input, _ =>
      (match input with
       | c :: cs => if p c then [(cs, none)] else []
       | [] => [])
  | _ + 1, .eps, input, _ => [(input, none)]
  | _ + 1, .wordB, input, prev =>
      if prevIsWord prev != headIsWord input then [(input, none)] else []
  | fuel + 1, .cat a b, input, prev =>
      (mrun fuel a input prev).flatMap (fun o1 =>
        (mrun fuel b o1.1 (lastConsumed input o1.1 prev)).map (fun o2 => (o2.1, o1.2 <|> o2.2)))
  | fuel + 1, .alt a b, input, prev => mrun fuel a input prev ++ mrun fuel b input prev
  | fuel + 1, .opt r, input, prev => mrun fuel r input prev ++ [(input, none)]
  | fuel + 1, .star r, input, prev =>
      ((mrun fuel r input prev).flatMap (fun o1 =>
        if o1.1.length < input.length then
          (mrun fuel (.star r) o1.1 (lastConsumed input o1.1 prev)).map
            (fun o2 => (o2.1, o1.2 <|> o2.2))
        else [])) ++ [(input, none)]
  | fuel + 1, .grp r, input, prev =>
      (mrun fuel r input prev).map (fun o => (o.1, some (input.take (input.length - o.1.length))))

/-- Leftmost search: try each start position left to right, keeping the
engine's first (highest-priority) match, as `String.prototype.match`. -/
def searchGo (re : RE) (fuel : Nat) : List Char → Option Char → Option (Option (List Char))
  | input, prev =>
      (match mrun fuel re input prev with
       | o :: _ => some o.2
       | [] =>
         match input with
         | [] => none
         | c :: cs => searchGo re fuel cs (some c))

/-- Recursion-depth budget: far above the pattern sizes plus the input
length, which bound the depth actually reached. -/
def reFuel (s : String) : Nat := (s.length + 2) * 64

/-- `re.test(s)`. -/
def reTest (re : RE) (s : String) : Bool := (searchGo re (reFuel s) s.data none).isSome

/-- `s.match(re)` followed by taking group 1. -/
def reCapture (re : RE) (s : String) : Option String :=
  match searchGo re (reFuel s) s.data none with
  | some (some cs) => some ⟨cs⟩
  | _ => none

/-- A case-insensitive literal (the `i` flag of every pattern below). -/
def litCI (s : String) : RE :=
  s.data.foldr (fun c acc => RE.cat (.cls (fun x => x.toLower == c.toLower)) acc) .eps

/-- `r+`. -/
def rePlus (r : RE) : RE := .cat r (.star r)

/-- The domain character class of server.js. -/
def isDomChar (c : Char) : Bool := c.isAlpha || c.isDigit || c == '.' || c == '-'

/-- The shared capture `([a-z0-9.-]+\.[a-z]2,)` (with the `i` flag). -/
def reDom : RE :=
  .grp (.cat (rePlus (.cls isDomChar))
    (.cat (.cls (fun c => c == '.')) (.cat (.cls Char.isAlpha) (rePlus (.cls Char.isAlpha)))))

/-- The class `[=:]`. -/
def reEqColon : RE := .cls (fun c => c == '=' || c == ':')

def reWsCls : RE := .cls isJsWs

/-- Pattern 1 of `extractDomain`: a bare `@domain` token. -/
def reAt : RE := .cat (.cls (fun c => c == '@')) reDom

/-- Pattern 2: `domain=` / `domain:` key value, word-bounded. -/
def reDomainKV : RE :=
  .cat .wordB (.cat (litCI "domain")
    (.cat reEqColon (.cat (.star reWsCls) (.cat reDom .wordB))))

/-- Pattern 3: `provider_domain=` (or `provider domain:`) key value. -/
def reProviderKV : RE :=
  .cat .wordB (.cat (litCI "provider")
    (.cat (.cls (fun c => c == '_' || c == ' '))
      (.cat (litCI "domain")
        (.cat reEqColon (.cat (.star reWsCls) (.cat reDom .wordB))))))

/-- Pattern 4: `mx host=` / `mx domain:` key value. -/
def reMxKV : RE :=
  .cat .wordB (.cat (litCI "mx")
    (.cat (rePlus reWsCls)
      (.cat (.alt (litCI "host") (litCI "domain"))
        (.cat reEqColon (.cat (.star reWsCls) (.cat reDom .wordB))))))

/-- Pattern 5: an angle-bracket address. -/
def reAngle : RE :=
  .cat (.cls (fun c => c == '<'))
    (.cat (rePlus (.cls (fun c => !(c == '@' || isJsWs c || c == '<' || c == '>'))))
      (.cat (.cls (fun c => c == '@')) (.cat reDom (.cls (fun c => c == '>')))))

/-- The optional local part `(?:<?[^@\s<]+@)?` of patterns 6 and 7. -/
def reLocalPart : RE :=
  .opt (.cat (.opt (.cls (fun c => c == '<')))
    (.cat (rePlus (.cls (fun c => !(c == '@' || isJsWs c || c == '<')))) (.cls (fun c => c == '@'))))

/-- Pattern 6: a `to=` / `to:` prefixed address or domain. -/
def reToKV : RE :=
  .cat .wordB (.cat (litCI "to")
    (.cat reEqColon (.cat (.star reWsCls)
      (.cat reLocalPart (.cat reDom (.opt (.cls (fun c => c == '>'))))))))

/-- Pattern 7: an `rcpt=` / `rcpt:` prefixed address or domain. -/
def reRcptKV : RE :=
  .cat .wordB (.cat (litCI "rcpt")
    (.cat reEqColon (.cat (.star reWsCls)
      (.cat reLocalPart (.cat reDom (.opt (.cls (fun c => c == '>'))))))))

/-- `extractDomain` from server.js: the fixed-priority pattern chain, first
match wins, capture lower-cased; a falsy input yields null. -/
def extractDomain (s : String) : Option String :=
  if s = "" then none
  else
    (reCapture reAt s <|> reCapture reDomainKV s <|> reCapture reProviderKV s <|>
     reCapture reMxKV s <|> reCapture reAngle s <|> reCapture reToKV s <|>
     reCapture reRcptKV s).map lowerStr

/-- `\b4\d\d\b`. -/
def re4xx : RE :=
  .cat .wordB (.cat (.cls (fun c => c == '4'))
    (.cat (.cls Char.isDigit) (.cat (.cls Char.isDigit) .wordB)))

/-- `\b4\.\d\.\d\b`. -/
def re4dot : RE :=
  .cat .wordB (.cat (.cls (fun c => c == '4'))
    (.cat (.cls (fun c => c == '.')) (.cat (.cls Char.isDigit)
      (.cat (.cls (fun c => c == '.')) (.cat (.cls Char.isDigit) .wordB)))))

def reTempFailTok : RE := .cat .wordB (.cat (litCI "temporary failure") .wordB)

def reTransientTok : RE := .cat .wordB (.cat (litCI "transient") .wordB)

/-- `\bdefer(?:red|ral)?\b`. -/
def reDeferTok : RE :=
  .cat .wordB (.cat (litCI "defer") (.cat (.opt (.alt (litCI "red") (litCI "ral"))) .wordB))

/-- `\brate ?limit(?:ed|ing)?\b`. -/
def reRateLimitTok : RE :=
  .cat .wordB (.cat (litCI "rate") (.cat (.opt (.cls (fun c => c == ' ')))
    (.cat (litCI "limit") (.cat (.opt (.alt (litCI "ed") (litCI "ing"))) .wordB))))

/-- `\bgreylist(?:ed|ing)?\b`. -/
def reGreylistTok : RE :=
  .cat .wordB (.cat (litCI "greylist") (.cat (.opt (.alt (litCI "ed") (litCI "ing"))) .wordB))

/-- `\btry(?:ing)? again later\b`. -/
def reTryAgainTok : RE :=
  .cat .wordB (.cat (litCI "try") (.cat (.opt (litCI "ing")) (.cat (litCI " again later") .wordB)))

/-- `isDeferralLine` from server.js. -/
def isDeferralLine (line : String) : Bool :=
  reTest re4xx line || reTest re4dot line || reTest reTempFailTok line ||
  reTest reTransientTok line || reTest reDeferTok line || reTest reRateLimitTok line ||
  reTest reGreylistTok line || reTest reTryAgainTok line

/-- The `TransientFailure` event-type test of `handleLine`
(case-insensitive substring). -/
def hasTransientFailure (ty : String) : Bool := reTest (litCI "TransientFailure") ty

/-- The `INFO|WARN|ERROR` level pattern of `recordEvent`. -/
def reLevel : RE :=
  .cat .wordB (.cat (.grp (.alt (litCI "INFO") (.alt (litCI "WARN") (litCI "ERROR")))) .wordB)

-- ---------- Recent events and the watcher ----------

/-- One Recent Event ring-buffer entry. -/
structure REvent where
  t : Int
  level : String
  msg : String

/-- `recordEvent` from server.js: strip terminal control sequences, trim,
infer the severity token (default INFO), truncate to 500 characters and cap
the ring buffer at `EVENTS_MAX` newest entries. -/
def recordEvent (line : String) (now : Int) (recent : List REvent) : List REvent :=
  let s := trimStr (stripAnsi line)
  if s = "" then recent
  else
    let level := upperStr ((reCapture reLevel s).getD "INFO")
    let appended := recent ++ [{ t := now, level := level, msg := takeStr 500 s }]
    if EVENTS_MAX < appended.length then appended.drop (appended.length - EVENTS_MAX) else appended

/-- The watcher state `handleLine` mutates. -/
structure WatchState where
  deferralEvents : List DeferralEvent
  lastErrors : String → List LErr
  recentEvents : List REvent

def emptyWatch : WatchState :=
  { deferralEvents := [], lastErrors := fun _ => [], recentEvents := [] }

/-- `handleLine` from `startDeferralWatcher` in server.js. `parsed` is the
result of `JSON.parse` on the trimmed line, supplied by the runtime (`none`
when parsing threw); everything after the parse is modelled from the source.
The `ts` placeholder 0 of the pushed record is overwritten by
`pushLastError`. -/
def handleLine (parsed : Option JVal) (line : String) (now : Int) (st : WatchState) : WatchState :=
  let s := trimStr line
  if s = "" then st
  else
    match parsed with
    | none => { st with recentEvents := recordEvent s now st.recentEvents }
    | some obj =>
      let ev1 := recordEvent (jsDisplay (jsOr (getF obj "message")
        (jsOr (getF obj "event") (jsOr (getF obj "type") (.str s))))) now st.recentEvents
      let st1 := { st with recentEvents := ev1 }
      let ty := jsDisplay (jsOr (getF obj "event") (jsOr (getF obj "type") (.str "")))
      if hasTransientFailure ty then
        let domJ := jsOr (getF obj "domain") (jsOr (getF obj "provider_domain") (getF obj "rcpt_domain"))
        let rcptJ := jsOr (getF obj "rcpt") (jsOr (getF obj "recipient")
          (jsOr (getF obj "envelope_to") (jsOr (getF obj "to")
            (jsOr (getF (getF obj "message") "recipient")
              (jsOr (getF (getF obj "message") "rcpt") (.str ""))))))
        let dom : Option String :=
          if truthy domJ then some (jsDisplay domJ)
          else
            (match extractDomain (jsDisplay rcptJ) with
             | some d => some d
             | none => extractDomain (jsDisplay (getF obj "message")))
        let st2 := match dom with
          | some d =>
              let dE := recordDeferral DEFERRAL_RETAIN_MS DEFERRAL_MAX_EVENTS
                st1.deferralEvents (lowerStr d) now
              { st1 with deferralEvents := dE }
          | none => st1
        let codeJ := jsOr (getF (getF obj "response") "code")
          (jsOr (getF (getF obj "smtp") "code") (getF obj "smtp_code"))
        let enhlJ := jsOr (getF (getF obj "response") "enhanced_code") (getF obj "enhanced_code")
        let textJ := jsOr (getF (getF obj "response") "content")
          (jsOr (getF (getF obj "response") "text") (jsOr (getF (getF obj "smtp") "text")
            (jsOr (getF obj "reason") (jsOr (getF obj "message") (.str "")))))
        match dom with
        | some d =>
          if truthy codeJ || truthy textJ then
            let ev2 := recordEvent (trimStr ("DEFERRAL " ++ d ++ " "
              ++ jsDisplay (jsOr codeJ (.str "")) ++ " "
              ++ (match toEnhancedCode enhlJ with | some e => e | none => "") ++ " "
              ++ trimText (jsDisplay textJ) 240)) now st2.recentEvents
            let st3 := { st2 with recentEvents := ev2 }
            let lE := pushLastError st3.lastErrors
              { ts := 0
                domain := lowerStr d
                provider := jsNullishOr (jsOr (getF obj "provider") (jsOr (getF obj "provider_domain") .null)) .undefv
                code := jsNullishOr codeJ .undefv
                enhanced := toEnhancedCode enhlJ
                text := trimText (jsDisplay textJ) 400 } now
            { st3 with lastErrors := lE }
          else st2
        | none => st2
      else st1

/-- `pushFromKumo` from server.js: append one normalized Sample and one
Queue Snapshot tagged with the poll time, then prune by retention. -/
def pushFromKumo (m : JVal) (now : Int) (s : MemState) : MemState :=
  let samples := s.samples ++
    [{ t := now, received := receivedOf m, delivered := deliveredOf m,
       deferred := deferredOf m, bounced := bouncedOf m }]
  let qSamples := s.qSamples ++
    [{ t := now, depth := depthOf m, ready := readyOf m, scheduled := scheduledOf m }]
  let pr := prune now samples qSamples
  { s with samples := pr.1, qSamples := pr.2 }

-- ---------- Concrete inputs named by the spec's test properties ----------

/-- The parsed form of the spec's raw JSON log line. -/
def c3Obj : JVal :=
  .obj [("event", .str "TransientFailure"), ("domain", .str "example.com"),
    ("response", .obj [("code", .num 450), ("text", .str "try again")])]

/-- The raw JSON log line itself (only its non-emptiness matters after the
parse). -/
def c3Line : String :=
  "\x7b\"event\":\"TransientFailure\",\"domain\":\"example.com\",\"response\":\x7b\"code\":450,\"text\":\"try again\"\x7d\x7d"

/-- The spec's plain-text deferral log line. -/
def c5Line : String :=
  "... rcpt=<user@mail.example.org> 450 4.2.1 mailbox temporarily unavailable"

-- ---------- Helper lemmas ----------

theorem windowSum_nonneg_aux (list : List Sample) (endTs ms : Int) (k : CKey) :
    0 ≤ windowSum list endTs ms k := by
  induction list with
  | nil => simp [windowSum]
  | cons a tl ih =>
    cases tl with
    | nil => simp [windowSum]
    | cons b rest =>
      have h1 : (0 : Int) ≤ (if b.t ≤ endTs - ms then 0 else max 0 (b.get k - a.get k)) := by
        split
        · exact le_refl 0
        · exact le_max_left 0 _
      simpa only [windowSum] using add_nonneg h1 ih

theorem windowSum_mono_aux (list : List Sample) (endTs w1 w2 : Int) (k : CKey)
    (h : w1 ≤ w2) : windowSum list endTs w1 k ≤ windowSum list endTs w2 k := by
  induction list with
  | nil => simp [windowSum]
  | cons a tl ih =>
    cases tl with
    | nil => simp [windowSum]
    | cons b rest =>
      simp only [windowSum]
      refine add_le_add ?_ ih
      by_cases h2 : b.t ≤ endTs - w2
      · have h1 : b.t ≤ endTs - w1 := le_trans h2 (by omega)
        simp [h1, h2]
      · by_cases h1 : b.t ≤ endTs - w1
        · simp only [if_pos h1, if_neg h2]
          exact le_max_left 0 _
        · simp [h1, h2]

theorem winLe_refl (w : WinStat) : winLe w w :=
  ⟨le_refl _, le_refl _, le_refl _, le_refl _⟩

theorem winLe_trans {a b c : WinStat} (h1 : winLe a b) (h2 : winLe b c) : winLe a c :=
  ⟨le_trans h1.1 h2.1, le_trans h1.2.1 h2.2.1, le_trans h1.2.2.1 h2.2.2.1,
   le_trans h1.2.2.2 h2.2.2.2⟩

theorem updOne_le (d s : WinStat) : winLe d (updOne d s) :=
  ⟨le_max_left _ _, le_max_left _ _, le_max_left _ _, le_max_left _ _⟩

theorem peaksLe_refl (p : PeaksPair) : peaksLe p p := ⟨winLe_refl _, winLe_refl _⟩

theorem peaksLe_trans {p q r : PeaksPair} (h1 : peaksLe p q) (h2 : peaksLe q r) :
    peaksLe p r := ⟨winLe_trans h1.1 h2.1, winLe_trans h1.2 h2.2⟩

theorem updatePeaks_le (p : PeaksPair) (lm lh : WinStat) : peaksLe p (updatePeaks p lm lh) :=
  ⟨updOne_le _ _, updOne_le _ _⟩

theorem peaks_foldl_le (invs : List (WinStat × WinStat)) :
    ∀ p : PeaksPair, peaksLe p (invs.foldl (fun q i => updatePeaks q i.1 i.2) p) := by
  induction invs with
  | nil => exact fun p => peaksLe_refl p
  | cons i tl ih =>
    intro p
    exact peaksLe_trans (updatePeaks_le p i.1 i.2) (ih (updatePeaks p i.1 i.2))

theorem orI_zero (x : Int) : orI x 0 = x := by
  by_cases h : x = 0 <;> simp [orI, h]

theorem firstNonzero_nil : firstNonzero [] = 0 := rfl

theorem firstNonzero_cons (x : Int) (l : List Int) :
    firstNonzero (x :: l) = orI x (firstNonzero l) := by
  by_cases h : x = 0
  · subst h
    simp [firstNonzero, orI, List.find?]
  · have hb : (x != 0) = true := by simp [bne_iff_ne, h]
    simp [firstNonzero, orI, List.find?, hb, h]

theorem pushLastError_len_le (m : String → List LErr) (entry : LErr) (now : Int)
    (d : String) (h : (m d).length ≤ LAST_ERRORS_PER_DOMAIN) :
    ((pushLastError m entry now) d).length ≤ LAST_ERRORS_PER_DOMAIN := by
  simp only [pushLastError]
  by_cases hd : d = entry.domain
  · rw [if_pos hd]
    refine le_trans (List.length_filter_le _ _) ?_
    rw [List.length_drop]
    omega
  · rw [if_neg hd]
    exact le_trans (List.length_filter_le _ _) h

-- ---------- Claim theorems ----------

/-- C1: for every sample list, end time, window duration and counter key the
window sum is nonnegative, and a pair on which the cumulative counter
decreases (a reset) contributes zero rather than a negative delta. -/
theorem windowSum_nonneg_and_reset_clamped :
    (∀ (list : List Sample) (endTs ms : Int) (k : CKey), 0 ≤ windowSum list endTs ms k) ∧
    (∀ (a b : Sample) (rest : List Sample) (endTs ms : Int) (k : CKey),
      b.get k ≤ a.get k →
      windowSum (a :: b :: rest) endTs ms k = windowSum (b :: rest) endTs ms k) := by
  refine ⟨windowSum_nonneg_aux, ?_⟩
  intro a b rest endTs ms k h
  have hm : max 0 (b.get k - a.get k) = 0 := max_eq_left (by omega)
  simp only [windowSum, hm, ite_self, zero_add]

/-- Witness for C1: a counter reset (9 drops to 5) inside the window
contributes zero. -/
theorem windowSum_nonneg_and_reset_clamped_witness :
    Sample.get ⟨10, 0, 5, 0, 0⟩ CKey.delivered ≤ Sample.get ⟨0, 0, 9, 0, 0⟩ CKey.delivered ∧
    windowSum [⟨0, 0, 9, 0, 0⟩, ⟨10, 0, 5, 0, 0⟩] 10 100 CKey.delivered
      = windowSum [⟨10, 0, 5, 0, 0⟩] 10 100 CKey.delivered :=
  ⟨by decide,
   windowSum_nonneg_and_reset_clamped.2 ⟨0, 0, 9, 0, 0⟩ ⟨10, 0, 5, 0, 0⟩ [] 10 100
     CKey.delivered (by decide)⟩

/-- C10: the window sum is monotone in the window duration, and in
particular every field of the last-hour window stat of `buildSession`
dominates the corresponding last-minute field. -/
theorem windowSum_monotone_in_window :
    (∀ (list : List Sample) (endTs w1 w2 : Int) (k : CKey),
      w1 ≤ w2 → windowSum list endTs w1 k ≤ windowSum list endTs w2 k) ∧
    (∀ (samples : List Sample) (now : Int) (k : CKey),
      (sessionWindow samples now MIN_MS).get k ≤ (sessionWindow samples now HOUR_MS).get k) := by
  constructor
  · exact fun l e w1 w2 k h => windowSum_mono_aux l e w1 w2 k h
  · intro samples now k
    cases k <;> exact windowSum_mono_aux _ _ _ _ _ (by norm_num [MIN_MS, HOUR_MS])

/-- Witness for C10 at a concrete sample list and window pair. -/
theorem windowSum_monotone_in_window_witness :
    ((10 : Int) ≤ 100) ∧
    windowSum [⟨0, 1, 2, 3, 4⟩, ⟨5, 6, 7, 8, 9⟩] 6 10 CKey.received
      ≤ windowSum [⟨0, 1, 2, 3, 4⟩, ⟨5, 6, 7, 8, 9⟩] 6 100 CKey.received :=
  ⟨by decide,
   windowSum_monotone_in_window.1 [⟨0, 1, 2, 3, 4⟩, ⟨5, 6, 7, 8, 9⟩] 6 10 100
     CKey.received (by decide)⟩

/-- C2: every Peak Record field is monotonically non-decreasing under any
sequence of `updatePeaks` invocations, and a save immediately followed by a
restore leaves the peaks exactly as they were. -/
theorem updatePeaks_monotone_and_roundtrip :
    (∀ (invs : List (WinStat × WinStat)) (p : PeaksPair),
      peaksLe p (invs.foldl (fun q i => updatePeaks q i.1 i.2) p)) ∧
    (∀ (s : MemState) (tSave tLoad : Int) (prev : MemState),
      (loadState (saveState s tSave) tLoad prev).peaks = s.peaks) := by
  constructor
  · exact fun invs p => peaks_foldl_le invs p
  · intro s tSave tLoad prev
    rfl

/-- C9: loading a persisted document and immediately saving again yields
samples, queue snapshots and deferral events that are each a sublist of the
original document's (retention may drop entries, never add them). -/
theorem loadState_saveState_subset :
    ∀ (doc : PersistedState) (tLoad tSave : Int) (prev : MemState),
      ((saveState (loadState doc tLoad prev) tSave).samples.getD []).Sublist
        (doc.samples.getD []) ∧
      ((saveState (loadState doc tLoad prev) tSave).qSamples.getD []).Sublist
        (doc.qSamples.getD []) ∧
      ((saveState (loadState doc tLoad prev) tSave).deferralEvents.getD []).Sublist
        (doc.deferralEvents.getD []) := by
  intro doc tLoad tSave prev
  refine ⟨?_, ?_, ?_⟩
  · cases h : doc.samples with
    | none => simp [saveState, loadState, h]
    | some l =>
      simp only [saveState, loadState, h, Option.getD_some]
      exact List.filter_sublist l
  · cases h : doc.qSamples with
    | none => simp [saveState, loadState, h]
    | some l =>
      simp only [saveState, loadState, h, Option.getD_some]
      exact List.filter_sublist l
  · cases h : doc.deferralEvents with
    | none => simp [saveState, loadState, h]
    | some l =>
      simp only [saveState, loadState, h, Option.getD_some]
      exact List.filter_sublist l

/-- C4: every counter extracted by `pushFromKumo` equals the first nonzero
value of its fixed ordered source list (the first successful source alone
determines the result, later sources are never added on top), and a missing
or non-numeric value normalizes to zero. -/
theorem pushFromKumo_precedence :
    (∀ m : JVal,
      deliveredOf m = firstNonzero (cumSources m "total_messages_delivered"
        "total_messages_delivered_by_provider" "total_messages_delivered_by_provider_and_source") ∧
      deferredOf m = firstNonzero (cumSources m "total_messages_transfail"
        "total_messages_transfail_by_provider" "total_messages_transfail_by_provider_and_source") ∧
      bouncedOf m = firstNonzero (cumSources m "total_messages_fail"
        "total_messages_fail_by_provider" "total_messages_fail_by_provider_and_source") ∧
      receivedOf m = firstNonzero
        [if isNum (valOf m "total_messages_received") then nJ (valOf m "total_messages_received") else 0,
         pickServiceTotal (getF (valOf m "total_messages_received") "service")] ∧
      scheduledOf m = firstNonzero
        [if isNum (valOf m "scheduled_count_total") then nJ (valOf m "scheduled_count_total") else 0,
         if isNum (valOf m "scheduled_count") then nJ (valOf m "scheduled_count") else 0] ∧
      readyOf m = firstNonzero [pickServiceTotal (getF (valOf m "ready_count") "service")] ∧
      depthOf m = firstNonzero
        [sumObjNums (getF (valOf m "queued_count_by_provider") "provider"),
         sumArrayAt (valOf m "queued_count_by_provider_and_pool"),
         readyOf m + scheduledOf m]) ∧
    (∀ v : JVal, isNum v = false → nJ v = 0) := by
  constructor
  · intro m
    refine ⟨?_, ?_, ?_, ?_, ?_, ?_, ?_⟩ <;>
      simp only [deliveredOf, deferredOf, bouncedOf, receivedOf, scheduledOf, readyOf,
        depthOf, cumCounter, cumSources, firstNonzero_cons, firstNonzero_nil, orI_zero]
  · intro v h
    cases v <;> simp_all [isNum, nJ]

/-- Witness for C4: the undefined value is non-numeric and normalizes to 0. -/
theorem pushFromKumo_precedence_witness :
    isNum JVal.undefv = false ∧ nJ JVal.undefv = 0 :=
  ⟨rfl, pushFromKumo_precedence.2 JVal.undefv rfl⟩

/-- C6 counterexample: with a configured cap of 1 the eviction batch size
is `Math.floor(1 * 0.9) = 0`, JavaScript `slice(-0)` keeps the whole
array, and a single insert over the cap leaves 2 events in the ledger, so
the count does exceed the configured maximum. -/
theorem recordDeferral_cap_counterexample :
    (recordDeferral 100 1 [⟨1, "a"⟩] "b" 5).length = 2 ∧
    ¬((recordDeferral 100 1 [⟨1, "a"⟩] "b" 5).length ≤ 1) := by
  refine ⟨rfl, ?_⟩
  decide

/-- C6 amended: for every configured maximum whose 90-percent eviction
batch target is at least one entry (true of every cap at least 2, in
particular the default 50000), after a `recordDeferral` insert the ledger
never exceeds the cap; overflow evicts the oldest entries in one batch
down to floor of 90 percent of the cap (the result is a suffix of the
time-filtered appended list); entries older than the retention horizon are
dropped on every insert; and the surviving entries remain in
non-decreasing time order. For caps of at most 1 the batch target is 0 and
`slice(-0)` keeps everything, so the cap can be exceeded. -/
theorem recordDeferral_cap_and_order :
    ∀ (retainMs : Int) (maxEvents : Nat) (events : List DeferralEvent)
      (domain : String) (now : Int),
      1 ≤ maxEvents * 9 / 10 →
      domain ≠ "" →
      List.Pairwise (fun a b : DeferralEvent => a.t ≤ b.t) events →
      (∀ e ∈ events, e.t ≤ now) →
      (recordDeferral retainMs maxEvents events domain now).length ≤ maxEvents ∧
      List.Pairwise (fun a b : DeferralEvent => a.t ≤ b.t)
        (recordDeferral retainMs maxEvents events domain now) ∧
      (∀ e ∈ recordDeferral retainMs maxEvents events domain now, now - retainMs ≤ e.t) ∧
      (recordDeferral retainMs maxEvents events domain now).IsSuffix
        ((events ++ [({ t := now, domain := domain } : DeferralEvent)]).filter (fun e => decide (now - retainMs ≤ e.t))) ∧
      (maxEvents < ((events ++ [({ t := now, domain := domain } : DeferralEvent)]).filter
          (fun e => decide (now - retainMs ≤ e.t))).length →
        (recordDeferral retainMs maxEvents events domain now).length = maxEvents * 9 / 10) := by
  intro retainMs maxEvents events domain now hk hdom hpw hle
  have hkz : maxEvents * 9 / 10 ≠ 0 := by omega
  have h9 : maxEvents * 9 / 10 ≤ maxEvents := by
    have h1 : maxEvents * 9 / 10 ≤ maxEvents * 10 / 10 :=
      Nat.div_le_div_right (by omega)
    have h2 : maxEvents * 10 / 10 = maxEvents := Nat.mul_div_cancel _ (by norm_num)
    omega
  have hpwf : List.Pairwise (fun a b : DeferralEvent => a.t ≤ b.t)
      ((events ++ [({ t := now, domain := domain } : DeferralEvent)]).filter (fun e => decide (now - retainMs ≤ e.t))) := by
    refine List.Pairwise.sublist (List.filter_sublist _) ?_
    refine List.pairwise_append.2 ⟨hpw, List.pairwise_singleton _ _, ?_⟩
    intro a ha b hb
    have hb1 : b = (⟨now, domain⟩ : DeferralEvent) := by simpa using hb
    subst hb1
    exact hle a ha
  have hfr : ∀ e ∈ (events ++ [(⟨now, domain⟩ : DeferralEvent)]).filter
      (fun e => decide (now - retainMs ≤ e.t)), now - retainMs ≤ e.t := by
    intro e he
    exact of_decide_eq_true (List.mem_filter.1 he).2
  have hrd : recordDeferral retainMs maxEvents events domain now =
      (if maxEvents < ((events ++ [({ t := now, domain := domain } : DeferralEvent)]).filter
          (fun e => decide (now - retainMs ≤ e.t))).length
       then ((events ++ [({ t := now, domain := domain } : DeferralEvent)]).filter
          (fun e => decide (now - retainMs ≤ e.t))).drop
            (((events ++ [({ t := now, domain := domain } : DeferralEvent)]).filter
              (fun e => decide (now - retainMs ≤ e.t))).length - maxEvents * 9 / 10)
       else (events ++ [({ t := now, domain := domain } : DeferralEvent)]).filter (fun e => decide (now - retainMs ≤ e.t))) := by
    simp only [recordDeferral, jsSliceNeg, if_neg hdom, if_neg hkz]
  rw [hrd]
  by_cases hc : maxEvents < ((events ++ [({ t := now, domain := domain } : DeferralEvent)]).filter
      (fun e => decide (now - retainMs ≤ e.t))).length
  · rw [if_pos hc]
    refine ⟨?_, ?_, ?_, ?_, ?_⟩
    · rw [List.length_drop]; omega
    · exact List.Pairwise.sublist (List.drop_sublist _ _) hpwf
    · intro e he
      exact hfr e (List.mem_of_mem_drop he)
    · exact List.drop_suffix _ _
    · intro _
      rw [List.length_drop]; omega
  · rw [if_neg hc]
    refine ⟨by omega, hpwf, hfr, List.suffix_refl _, fun h => absurd h hc⟩

/-- Witness for C6: inserting a third event over a cap of 2 evicts down to
floor(0.9 * 2) = 1 entry, keeping the newest. -/
theorem recordDeferral_cap_and_order_witness :
    ((1 : Nat) ≤ 2 * 9 / 10 ∧
     ("c" : String) ≠ "" ∧
     List.Pairwise (fun a b : DeferralEvent => a.t ≤ b.t)
       ([⟨1, "a"⟩, ⟨2, "b"⟩] : List DeferralEvent) ∧
     (∀ e ∈ ([⟨1, "a"⟩, ⟨2, "b"⟩] : List DeferralEvent), e.t ≤ 5)) ∧
    ((recordDeferral 100 2 [⟨1, "a"⟩, ⟨2, "b"⟩] "c" 5).length ≤ 2 ∧
     List.Pairwise (fun a b : DeferralEvent => a.t ≤ b.t)
       (recordDeferral 100 2 [⟨1, "a"⟩, ⟨2, "b"⟩] "c" 5) ∧
     (∀ e ∈ recordDeferral 100 2 [⟨1, "a"⟩, ⟨2, "b"⟩] "c" 5, (5 : Int) - 100 ≤ e.t) ∧
     (recordDeferral 100 2 [⟨1, "a"⟩, ⟨2, "b"⟩] "c" 5).IsSuffix
       ((([⟨1, "a"⟩, ⟨2, "b"⟩] : List DeferralEvent) ++ [({ t := 5, domain := "c" } : DeferralEvent)]).filter
         (fun e => decide ((5 : Int) - 100 ≤ e.t))) ∧
     (2 < ((([⟨1, "a"⟩, ⟨2, "b"⟩] : List DeferralEvent) ++ [({ t := 5, domain := "c" } : DeferralEvent)]).filter
         (fun e => decide ((5 : Int) - 100 ≤ e.t))).length →
       (recordDeferral 100 2 [⟨1, "a"⟩, ⟨2, "b"⟩] "c" 5).length = 2 * 9 / 10)) :=
  ⟨⟨by decide, by decide, by decide, by decide⟩,
   recordDeferral_cap_and_order 100 2 [⟨1, "a"⟩, ⟨2, "b"⟩] "c" 5
     (by decide) (by decide) (by decide) (by decide)⟩

/-- C7: starting from the empty map, no sequence of `pushLastError` calls
ever leaves any domain with more than the per-domain cap of records; on the
touched domain the overflow eviction drops exactly the oldest entries (pure
FIFO: the front of the old list is dropped, the new record is appended);
and every insert sweeps records older than the retention horizon from all
domains, not only the touched one. -/
theorem pushLastError_cap_fifo_sweep :
    (∀ (calls : List (LErr × Int)) (d : String),
      ((calls.foldl (fun m c => pushLastError m c.1 c.2) (fun _ => [])) d).length
        ≤ LAST_ERRORS_PER_DOMAIN) ∧
    (∀ (m : String → List LErr) (entry : LErr) (now : Int),
      pushLastError m entry now entry.domain =
        ((m entry.domain).drop ((m entry.domain).length + 1 - LAST_ERRORS_PER_DOMAIN)
            ++ [{ entry with ts := now }]).filter
          (fun e => decide (now - LAST_ERRORS_RETENTION ≤ e.ts))) ∧
    (∀ (m : String → List LErr) (entry : LErr) (now : Int) (d : String) (x : LErr),
      x ∈ pushLastError m entry now d → now - LAST_ERRORS_RETENTION ≤ x.ts) := by
  refine ⟨?_, ?_, ?_⟩
  · have haux : ∀ (calls : List (LErr × Int)) (m : String → List LErr),
        (∀ d, (m d).length ≤ LAST_ERRORS_PER_DOMAIN) →
        ∀ d, ((calls.foldl (fun m c => pushLastError m c.1 c.2) m) d).length
          ≤ LAST_ERRORS_PER_DOMAIN := by
      intro calls
      induction calls with
      | nil => exact fun m hm d => hm d
      | cons c tl ih =>
        intro m hm d
        exact ih (pushLastError m c.1 c.2) (fun d => pushLastError_len_le m c.1 c.2 d (hm d)) d
    exact fun calls d => haux calls (fun _ => []) (fun _ => by simp [LAST_ERRORS_PER_DOMAIN]) d
  · intro m entry now
    simp only [pushLastError, if_pos]
    congr 1
    rw [List.length_append, List.length_singleton]
    rw [List.drop_append_of_le_length (by simp only [LAST_ERRORS_PER_DOMAIN]; omega)]
  · intro m entry now d x hx
    simp only [pushLastError] at hx
    exact of_decide_eq_true (List.mem_filter.1 hx).2

/-- Witness for C7: the record pushed into an empty map survives with its
timestamp set to the insert time and satisfies the retention bound. -/
theorem pushLastError_cap_fifo_sweep_witness :
    ((⟨7, "a", .undefv, .undefv, none, "t"⟩ : LErr)
        ∈ pushLastError (fun _ => []) ⟨99, "a", .undefv, .undefv, none, "t"⟩ 7 "a") ∧
    (7 : Int) - LAST_ERRORS_RETENTION ≤ (7 : Int) := by
  have hm : pushLastError (fun _ => []) ⟨99, "a", .undefv, .undefv, none, "t"⟩ 7 "a"
      = [⟨7, "a", .undefv, .undefv, none, "t"⟩] := rfl
  have hx : (⟨7, "a", .undefv, .undefv, none, "t"⟩ : LErr)
      ∈ pushLastError (fun _ => []) ⟨99, "a", .undefv, .undefv, none, "t"⟩ 7 "a" := by
    rw [hm]; exact List.mem_singleton_self _
  exact ⟨hx, pushLastError_cap_fifo_sweep.2.2 (fun _ => [])
    ⟨99, "a", .undefv, .undefv, none, "t"⟩ 7 "a" ⟨7, "a", .undefv, .undefv, none, "t"⟩ hx⟩

/-- C8: each per-minute rate point equals
`max 0 (later - earlier) * (60000 / elapsed)` with the elapsed time clamped
to at least 1 ms (the source's `max 0 (delta * f)` coincides because the
factor is positive), and the spec's concrete pair yields exactly 60. -/
theorem perMinuteRate_formula :
    (∀ (a b : Sample) (k : CKey),
      perMinuteRate a b k
        = ((max 0 (b.get k - a.get k) : Int) : ℚ)
            * (60000 / ((max 1 (b.t - a.t) : Int) : ℚ))) ∧
    perMinuteRate ⟨0, 0, 100, 0, 0⟩ ⟨60000, 0, 160, 0, 0⟩ CKey.delivered = 60 := by
  have key : ∀ (x : Int) (f : ℚ), 0 ≤ f → max 0 ((x : ℚ) * f) = ((max 0 x : Int) : ℚ) * f := by
    intro x f hf
    rw [Int.cast_mono.map_max, max_mul_of_nonneg _ _ hf]
    norm_num
  constructor
  · intro a b k
    have hdt : (0 : ℚ) < ((max 1 (b.t - a.t) : Int) : ℚ) := by
      have h1 : (1 : Int) ≤ max 1 (b.t - a.t) := le_max_left _ _
      have h2 : (0 : Int) < max 1 (b.t - a.t) := by omega
      exact_mod_cast h2
    have hf : (0 : ℚ) ≤ 60000 / ((max 1 (b.t - a.t) : Int) : ℚ) :=
      le_of_lt (div_pos (by norm_num) hdt)
    exact key (b.get k - a.get k) (60000 / ((max 1 (b.t - a.t) : Int) : ℚ)) hf
  · norm_num [perMinuteRate, Sample.get, max_def]

set_option maxRecDepth 200000 in
/-- C3: processing the spec's raw TransientFailure JSON line appends exactly
one Deferral Event for example.com and pushes exactly one Last-Error Record
for example.com with code 450 and trimmed text, touching no other domain. -/
theorem handleLine_json_transient_failure :
    (handleLine (some c3Obj) c3Line 0 emptyWatch).deferralEvents = [⟨0, "example.com"⟩] ∧
    (handleLine (some c3Obj) c3Line 0 emptyWatch).lastErrors "example.com"
      = [⟨0, "example.com", .undefv, .num 450, none, "try again"⟩] ∧
    ∀ d : String, d ≠ "example.com" →
      (handleLine (some c3Obj) c3Line 0 emptyWatch).lastErrors d = [] := by
  refine ⟨rfl, rfl, ?_⟩
  intro d hd
  have hE : (handleLine (some c3Obj) c3Line 0 emptyWatch).lastErrors
      = pushLastError (fun _ => []) ⟨0, "example.com", .undefv, .num 450, none, "try again"⟩ 0 := rfl
  rw [hE]
  simp [pushLastError, hd]

/-- Witness for C3: an untouched domain has no Last-Error Records. -/
theorem handleLine_json_transient_failure_witness :
    ("gmail.com" : String) ≠ "example.com" ∧
    (handleLine (some c3Obj) c3Line 0 emptyWatch).lastErrors "gmail.com" = [] :=
  ⟨by decide, handleLine_json_transient_failure.2.2 "gmail.com" (by decide)⟩

set_option maxRecDepth 200000 in
/-- C5 counterexample: the spec's plain-text line matches the deferral
vocabulary and its domain is extractable, yet the watcher records no
Deferral Event for it — on a JSON parse failure `handleLine` only records a
Recent Event and returns, so the claimed fallback recording does not
happen. -/
theorem text_fallback_counterexample :
    isDeferralLine c5Line = true ∧
    extractDomain c5Line = some "mail.example.org" ∧
    (handleLine none c5Line 0 emptyWatch).deferralEvents = [] ∧
    (handleLine none c5Line 0 emptyWatch).lastErrors "mail.example.org" = [] :=
  ⟨rfl, rfl, rfl, rfl⟩

set_option maxRecDepth 200000 in
/-- C5 amended: on JSON parse failure the watcher leaves the deferral ledger
and the last-error map untouched (it only records a Recent Event); the
pattern helpers themselves do classify the spec's text line as a deferral
and extract mail.example.org by the first (bare at-sign) pattern, but only
the debug probe uses them. -/
theorem handleLine_no_text_fallback :
    (∀ (s : String) (now : Int) (st : WatchState),
      (handleLine none s now st).deferralEvents = st.deferralEvents ∧
      (handleLine none s now st).lastErrors = st.lastErrors) ∧
    isDeferralLine c5Line = true ∧
    extractDomain c5Line = some "mail.example.org" := by
  refine ⟨?_, rfl, rfl⟩
  intro s now st
  by_cases h : trimStr s = ""
  · simp [handleLine, h]
  · simp [handleLine, h]

end Kumo
